import Mathlib

/-!
# Verification of the CodeFactory repository against its specification

Shallow embedding of the CodeFactory code base (a Python web service that
turns user stories into generated code and publishes the result through
git branches and pull requests).  Pure string algorithms are translated
function-by-function from the source; effectful operations (git commands,
HTTP calls, `json.loads`, the completion providers) are modelled by
explicit state passing and oracle parameters, with exceptions embedded as
`Except` values.

Sources embedded here:
 * `codefactory/utils/validation.py`   — `validate_github_url`
 * `codefactory/services/git_operations.py` — `parse_github_url`,
   `create_unique_branch_and_push`, `get_user_repositories`
 * `git_lib.py` — `create_unique_branch_and_push` (variant with base
   checkout and pull)
 * `codefactory/services/code_generation.py` — `clean_code_block`,
   `get_model_provider`, `generate_code`, `generate_updated_code`
 * `codefactory/services/git_provider.py` — `GitHubProvider.get_repositories`
 * `app.py` — the snapshot loop and update-application phase of
   `process_existing_repo`
-/

namespace CodeFactory

/-! ## Python string primitives

Python `str` values are embedded as Lean `String`s (lists of unicode
characters).  The helpers below reproduce the exact semantics of the
Python string methods used by the sources: `strip`, `startswith`,
`endswith`, `find`/`split(sep)`/`split(sep, 1)`/the `in` operator
(all via a first-occurrence scanner), `replace(".git", "")`, and
`lower`.  Fuel arguments equal to the string length keep every
definition structurally recursive and kernel-computable.
-/

/-- ASCII whitespace stripped by Python `str.strip()` (the unicode
whitespace beyond ASCII is immaterial to every input considered here). -/
def pyWs (c : Char) : Bool :=
  c = ' ' || c = '\t' || c = '\n' || c = '\r' || c = '\x0b' || c = '\x0c'

/-- `str.strip()` on the underlying character list. -/
def stripList (l : List Char) : List Char :=
  ((l.dropWhile pyWs).reverse.dropWhile pyWs).reverse

/-- Python `s.strip()`. -/
def pyStrip (s : String) : String := ⟨stripList s.data⟩

/-- Python `s.startswith(pre)`. -/
def pyStartsWith (s pre : String) : Bool := pre.data.isPrefixOf s.data

/-- Python `s.endswith(suf)`. -/
def pyEndsWith (s suf : String) : Bool := suf.data.isSuffixOf s.data

/-- First-occurrence scanner: splits `l` at the first occurrence of
`pat`, returning the part strictly before it and the part strictly
after it.  `none` when `pat` does not occur.  This is the common core
of Python's `in` operator, `find`, `split(sep, 1)` and `split(sep)`. -/
def splitOnceAux (pat : List Char) : List Char → Option (List Char × List Char)
  | [] => none
  | c :: cs =>
    if pat.isPrefixOf (c :: cs) then some ([], (c :: cs).drop pat.length)
    else
      match splitOnceAux pat cs with
      | none => none
      | some (pre, post) => some (c :: pre, post)

/-- Python `pat in s` (substring containment). -/
def containsSub (s pat : String) : Bool := (splitOnceAux pat.data s.data).isSome

/-- Python `s.split(sep)` for a non-empty separator: repeatedly split at
the first occurrence, consuming occurrences left to right.  The fuel is
at least the length of the list, which suffices because every round
consumes at least one character. -/
def splitAll (pat : List Char) : Nat → List Char → List (List Char)
  | 0, l => [l]
  | fuel + 1, l =>
    match splitOnceAux pat l with
    | none => [l]
    | some (pre, post) => pre :: splitAll pat fuel post

/-- Python `s.split(sep)` (non-empty `sep`). -/
def pySplitOn (s sep : String) : List String :=
  (splitAll sep.data (s.data.length + 1) s.data).map String.mk

/-- Python `lst[-1]` on a known-nonempty list (`split` never returns an
empty list), with `""` as the irrelevant default. -/
def lastD (l : List String) : String := l.getLastD ""

/-- The pattern removed by `url.replace(".git", "")`. -/
def gitPat : List Char := ['.', 'g', 'i', 't']

/-- Python `s.replace(".git", "")`: scan left to right, removing every
(non-overlapping) occurrence of `".git"`. -/
def replaceGitAux : Nat → List Char → List Char
  | 0, l => l
  | _ + 1, [] => []
  | fuel + 1, c :: cs =>
    if gitPat.isPrefixOf (c :: cs) then replaceGitAux fuel ((c :: cs).drop 4)
    else c :: replaceGitAux fuel cs

/-- Python `s.replace(".git", "")`. -/
def pyReplaceGit (s : String) : String := ⟨replaceGitAux s.data.length s.data⟩

/-- Python `s.lower()` (ASCII case folding, which covers every key the
sources sort by). -/
def pyLower (s : String) : String := ⟨s.data.map Char.toLower⟩

/-! ## Error model

Python exceptions are embedded as `Except` values over this error type;
the constructors mirror the exception classes thrown by the sources
(`ValueError`, `codefactory.core.exceptions.GitOperationError` and
`CodeGenerationError`, `json.JSONDecodeError`, a transport error from a
provider client, and a catch-all).  `errMsg` is Python's `str(e)`. -/
inductive PyErr where
  | valueError (msg : String)
  | gitOperationError (msg : String)
  | codeGenerationError (msg : String)
  | jsonDecodeError (msg : String)
  | transportError (msg : String)
  | otherError (msg : String)
deriving DecidableEq

/-- Python `str(e)` for the exceptions above. -/
def errMsg : PyErr → String
  | .valueError m => m
  | .gitOperationError m => m
  | .codeGenerationError m => m
  | .jsonDecodeError m => m
  | .transportError m => m
  | .otherError m => m

/-! ## URL validation — `codefactory/utils/validation.py`

The validator is the regular-expression test

  `^https?://github\.com/[\w.-]+/[\w.-]+(?:\.git)?$`
  `^git@github\.com:[\w.-]+/[\w.-]+(?:\.git)?$`

Both `[\w.-]` classes exclude `/`, and the characters of the optional
`\.git` suffix all lie inside `[\w.-]`, so the part after the host
token matches precisely when it splits at its first `/` into two
non-empty `[\w.-]`-strings (the second one cannot contain a further
`/`).  `\w` is modelled on its ASCII fragment (letters, digits, `_`),
which covers every character class distinction the claims exercise. -/

namespace Validation

/-- A character of the class `\w` (ASCII fragment). -/
def isWordChar (c : Char) : Bool := c.isAlphanum || c = '_'

/-- A character of the class `[\w.-]`. -/
def isOwnerChar (c : Char) : Bool := isWordChar c || c = '.' || c = '-'

/-- The `[\w.-]+/[\w.-]+(?:\.git)?$` tail of both URL patterns. -/
def tailOK (l : List Char) : Bool :=
  match splitOnceAux ['/'] l with
  | some (a, b) => !a.isEmpty && !b.isEmpty && a.all isOwnerChar && b.all isOwnerChar
  | none => false

/-- Anchored prefix match: the remainder of `l` after `pre`, when `pre`
is a prefix. -/
def afterPrefix? (pre l : List Char) : Option (List Char) :=
  if pre.isPrefixOf l then some (l.drop pre.length) else none

/-- `validate_github_url` (`codefactory/utils/validation.py`, identical
in `git_lib.py`): accept the HTTPS form `https?://github.com/owner/name[.git]`
and the SSH form `git@github.com:owner/name[.git]`; reject everything
else, including the empty string. -/
def validate_github_url (url : String) : Bool :=
  if url = "" then false
  else
    (match afterPrefix? "https://github.com/".data url.data with
     | some t => tailOK t
     | none => false) ||
    (match afterPrefix? "http://github.com/".data url.data with
     | some t => tailOK t
     | none => false) ||
    (match afterPrefix? "git@github.com:".data url.data with
     | some t => tailOK t
     | none => false)

end Validation

/-! ## URL parsing — `codefactory/services/git_operations.py`

`parse_github_url` validates, then removes every occurrence of `".git"`
(`url.replace(".git", "")` — note: *all* occurrences, not only a
trailing one), then takes everything after the last occurrence of
`"github.com/"` (or `"github.com:"` for the SSH form) via
`split(...)[-1]`, and splits that at the first `/` into owner and
name.  All internal failures are caught and re-raised as
`GitOperationError` (the `git_lib.py` twin is identical with
`ValueError` in place of `GitOperationError`). -/

namespace GitOps

open Validation

/-- The tail of the `try` block of `parse_github_url`: the checks on
`parts` and the final `parts.split("/", 1)` unpacking. -/
def unpackParts (github_url parts : String) : Except String (String × String) :=
  if parts = "" || !containsSub parts "/" then
    .error s!"Invalid GitHub URL format: {github_url}"
  else
    match splitOnceAux ['/'] parts.data with
    | some (a, b) =>
      if a.isEmpty || b.isEmpty then
        .error s!"Invalid GitHub URL format: {github_url}"
      else .ok (⟨a⟩, ⟨b⟩)
    | none => .error s!"Invalid GitHub URL format: {github_url}"

/-- `parse_github_url` from `codefactory/services/git_operations.py`. -/
def parse_github_url (github_url : String) : Except PyErr (String × String) :=
  if !validate_github_url github_url then
    .error (.gitOperationError s!"Invalid GitHub URL format: {github_url}")
  else
    -- body of the `try` block; any failure is wrapped below
    let cleaned := pyReplaceGit github_url
    let inner : Except String (String × String) :=
      if containsSub cleaned "github.com/" then
        unpackParts github_url (lastD (pySplitOn cleaned "github.com/"))
      else if containsSub cleaned "github.com:" then
        unpackParts github_url (lastD (pySplitOn cleaned "github.com:"))
      else
        .error s!"Cannot parse GitHub URL: {github_url}"
    match inner with
    | .ok p => .ok p
    | .error m =>
      .error (.gitOperationError s!"Error parsing GitHub URL: {github_url}. Error: {m}")

end GitOps

/-! ## Code generation — `codefactory/services/code_generation.py`

The completion providers and `json.loads` are boundary interfaces
(network and the Python standard library); they enter the model as
oracle parameters: `complete` maps the prepared messages to either a
response text or a transport/provider failure, and `jsonLoads` returns
the parsed path→content object or `none` on a `JSONDecodeError` (the
sources immediately treat the parse result as such a mapping).
Everything else — template lookup, `str.format` rendering, provider
selection, the JSON branch, and the outer `except Exception` wrapper
that re-raises everything as `CodeGenerationError` — is translated
directly. -/

namespace CodeGen

/-- A chat message `{"role": ..., "content": ...}`. -/
structure Message where
  role : String
  content : String
deriving DecidableEq

/-- `PromptTemplate` from `codefactory/core/templates.py`. -/
structure PromptTemplate where
  system_message : String
  user_template : String
deriving DecidableEq

/-- The `TEMPLATES` table of `codefactory/core/templates.py` (the
prompt wording is the out-of-scope template text; the structure —
the two keys, a system message, and a user template whose replacement
fields are `{requirement}` and `{existing_code}`, the `generate_code`
one additionally containing raw `\x7b`/`\x7d` braces from its inline
JSON example — is what the embedded behaviour depends on). -/
def TEMPLATES : List (String × PromptTemplate) :=
  [("generate_code",
    { system_message := "You are an AI coding assistant. Produce Python code that fulfills the user's requirement. [guidelines 1-8]"
      user_template := "The user wants the following feature:\n{requirement}\n\nWrite a Python program that fulfills this requirement.\nReturn a JSON object where keys are file paths and values are the file contents.\nExample format:\n\x7b\n    \"main.py\": \"content of main.py\",\n    \"utils/helpers.py\": \"content of helpers.py\"\n\x7d" }),
   ("update_code",
    { system_message := "You are an AI coding assistant. Modify the given code to fulfill the user story. [guidelines 1-7]"
      user_template := "Existing codebase (JSON object mapping file paths to code):\n{existing_code}\n\nThe user story is:\n{requirement}\n\nPlease update the existing codebase to fulfill this requirement, preserving existing functionality.\nReturn a JSON object where keys are file paths and values are the updated file contents." })]

/-- Python `str.format(**kwargs)` on the fragment the templates use:
`{name}` is replaced by the named argument, `\x7b\x7b`/`\x7d\x7d` are
literal-brace escapes, and a lone brace, an unclosed field, or a field
name that is not a keyword argument raises (`none`).  Fuel is the
length of the template text; values are emitted, never re-scanned. -/
def pyFormatAux (kw : List (String × String)) : Nat → List Char → Option (List Char)
  | 0, _ => none
  | _ + 1, [] => some []
  | fuel + 1, '{' :: '{' :: rest =>
    (pyFormatAux kw fuel rest).map (fun r => '{' :: r)
  | fuel + 1, '{' :: rest =>
    match splitOnceAux ['}'] rest with
    | none => none
    | some (field, rest2) =>
      match kw.lookup ⟨field⟩ with
      | none => none
      | some v => (pyFormatAux kw fuel rest2).map (fun r => v.data ++ r)
  | fuel + 1, '}' :: '}' :: rest =>
    (pyFormatAux kw fuel rest).map (fun r => '}' :: r)
  | _ + 1, '}' :: _ => none
  | fuel + 1, c :: rest =>
    (pyFormatAux kw fuel rest).map (fun r => c :: r)

/-- Python `template.format(**kwargs)`. -/
def pyFormat (template : String) (kw : List (String × String)) : Option String :=
  (pyFormatAux kw (template.data.length + 1) template.data).map String.mk

/-- The configured provider kinds of `get_model_provider`. -/
inductive ProviderKind where
  | openai
  | ollama
deriving DecidableEq

/-- `get_model_provider`: reads `MODEL_PROVIDER` (default `"openai"`),
lowercases it, and raises `ValueError` on anything other than
`"openai"`/`"ollama"`. -/
def get_model_provider (envProvider : Option String) : Except PyErr ProviderKind :=
  let provider := pyLower (envProvider.getD "openai")
  if provider = "openai" then .ok .openai
  else if provider = "ollama" then .ok .ollama
  else .error (.valueError s!"Unsupported model provider: {provider}")

/-- Result of `generate_code`: the parsed path→content object for the
two JSON templates, the raw response text otherwise. -/
inductive GenOut where
  | parsed (files : List (String × String))
  | raw (text : String)
deriving DecidableEq

/-- The body of `generate_code`'s `try` block: template lookup, message
preparation, provider selection, the completion call, and — for
`generate_code`/`update_code` — the `json.loads` branch whose
`JSONDecodeError` is raised as `CodeGenerationError`.  (The debug
export is filesystem-only and disabled by default; it has no effect on
the result.) -/
def generate_code_body (envProvider : Option String)
    (complete : List Message → Except PyErr String)
    (jsonLoads : String → Option (List (String × String)))
    (template_name : String) (kwargs : List (String × String)) :
    Except PyErr GenOut :=
  match TEMPLATES.lookup template_name with
  | none => .error (.codeGenerationError s!"Template not found: {template_name}")
  | some template =>
    match pyFormat template.user_template kwargs with
    | none => .error (.valueError "format error")
    | some user_message =>
      let messages := [⟨"system", template.system_message⟩, ⟨"user", user_message⟩]
      match get_model_provider envProvider with
      | .error e => .error e
      | .ok _ =>
        match complete messages with
        | .error e => .error e
        | .ok response =>
          if template_name = "generate_code" || template_name = "update_code" then
            match jsonLoads response with
            | some obj => .ok (.parsed obj)
            | none => .error (.codeGenerationError "Failed to parse response as JSON")
          else .ok (.raw response)

/-- `generate_code`: the `try` body above, with the outer
`except Exception as e: raise CodeGenerationError(f"Code generation failed: {str(e)}")`
wrapper that converts *every* escaping failure (including an inner
`CodeGenerationError`) into a `CodeGenerationError`. -/
def generate_code (envProvider : Option String)
    (complete : List Message → Except PyErr String)
    (jsonLoads : String → Option (List (String × String)))
    (template_name : String) (kwargs : List (String × String)) :
    Except PyErr GenOut :=
  match generate_code_body envProvider complete jsonLoads template_name kwargs with
  | .ok v => .ok v
  | .error e =>
    .error (.codeGenerationError ("Code generation failed: " ++ errMsg e))

/-- Python `str(existing_code)` for the dict passed into the
`update_code` template (the exact rendering is immaterial: the result
is only interpolated into prompt text). -/
def reprDict (d : List (String × String)) : String :=
  "\x7b" ++ String.intercalate ", "
    (d.map (fun kv => "\x27" ++ kv.1 ++ "\x27: \x27" ++ kv.2 ++ "\x27")) ++ "\x7d"

/-- `generate_code_for_user_story`. -/
def generate_code_for_user_story (envProvider : Option String)
    (complete : List Message → Except PyErr String)
    (jsonLoads : String → Option (List (String × String)))
    (user_story : String) : Except PyErr GenOut :=
  generate_code envProvider complete jsonLoads "generate_code"
    [("requirement", user_story)]

/-- `generate_updated_code`. -/
def generate_updated_code (envProvider : Option String)
    (complete : List Message → Except PyErr String)
    (jsonLoads : String → Option (List (String × String)))
    (user_story : String) (existing_code : List (String × String)) :
    Except PyErr GenOut :=
  generate_code envProvider complete jsonLoads "update_code"
    [("requirement", user_story), ("existing_code", reprDict existing_code)]

/-- `clean_code_block` from `codefactory/services/code_generation.py`
(the variant `app.py` imports): strip whitespace; when the stripped
text both starts and ends with a triple-backtick fence, drop the first
line (if a newline exists) and the final three characters, stripping
again. -/
def clean_code_block (generated_code : String) : String :=
  let code := pyStrip generated_code
  if pyStartsWith code "```" && pyEndsWith code "```" then
    let code1 : List Char :=
      match splitOnceAux ['\n'] code.data with
      | some (_, aft) => aft          -- code[first_newline + 1 :]
      | none => code.data             -- find returned -1
    pyStrip ⟨code1.take (code1.length - 3)⟩   -- code[:-3].strip()
  else code

end CodeGen

/-! ## The snapshot and update phases of `app.py:process_existing_repo`

The directory walk (`os.walk`) and the readability of each file are
boundary facts of the filesystem; a walk is modelled as the list of
files it yields, each with its path relative to the checkout root, its
content, and whether reading it as UTF-8 text succeeds.  The compiled
`.gitignore` `PathSpec` matcher is an oracle predicate on relative
paths (`none` when no `.gitignore` exists). -/

namespace App

/-- One file yielded by the `os.walk` over the checkout. -/
structure FileEntry where
  rel_path : String
  content : String
  readable : Bool

/-- Python `ignore_spec and ignore_spec.match_file(rel_path)`: false
when no `.gitignore` was loaded, otherwise the matcher's verdict. -/
def matchesSpec (ignore_spec : Option (String → Bool)) (p : String) : Bool :=
  match ignore_spec with
  | some m => m p
  | none => false

/-- The snapshot loop of `process_existing_repo` (`app.py` lines
274–293): keep a file only if its name ends in `.py`, it is not
matched by the ignore spec, and reading it succeeds; a read failure
skips just that file (`continue`). -/
def read_codebase (ignore_spec : Option (String → Bool)) :
    List FileEntry → List (String × String)
  | [] => []
  | f :: rest =>
    if !pyEndsWith f.rel_path ".py" then read_codebase ignore_spec rest
    else if matchesSpec ignore_spec f.rel_path then read_codebase ignore_spec rest
    else if !f.readable then read_codebase ignore_spec rest
    else (f.rel_path, f.content) :: read_codebase ignore_spec rest

/-- The generation-and-write phase of `process_existing_repo` (`app.py`
lines 296–303): call `generate_updated_code`; a raised exception
propagates before any file write, otherwise every returned entry is
written with `clean_code_block` applied to its content.  The returned
list is the sequence of writes performed on the checkout. -/
def update_phase (envProvider : Option String)
    (complete : List CodeGen.Message → Except PyErr String)
    (jsonLoads : String → Option (List (String × String)))
    (full_prompt : String) (codebase : List (String × String)) :
    Except PyErr (List (String × String)) :=
  match CodeGen.generate_updated_code envProvider complete jsonLoads
      full_prompt codebase with
  | .error e => .error e
  | .ok (.parsed updated_codebase) =>
    .ok (updated_codebase.map
      (fun pc => (pc.1, CodeGen.clean_code_block pc.2)))
  | .ok (.raw _) =>
    -- `updated_codebase.items()` on a non-dict raises `AttributeError`
    .error (.otherError "'str' object has no attribute 'items'")

end App

/-! ## Git publishing — `git_lib.py:create_unique_branch_and_push`

The git repository is modelled as explicit state: the set of local
branches with the tree at each branch tip, the current branch, the
working tree, a commit counter, and the branches pushed to `origin`.
`datetime.now()` and the outcome of `origin.pull()` are oracle
parameters.  File trees are association lists from path to content. -/

namespace GitLib

/-- Store `v` under `k`, replacing an existing binding (a file write). -/
def upsert : List (String × String) → String → String → List (String × String)
  | [], k, v => [(k, v)]
  | (k', v') :: t, k, v =>
    if k' = k then (k, v) :: t else (k', v') :: upsert t k v

/-- The state of the local repository and its remote interactions. -/
structure GitState where
  branches : List String
  /-- The committed tree at each branch tip. -/
  trees : String → List (String × String)
  currentBranch : String
  /-- The working tree (= index after `git add -A`). -/
  workTree : List (String × String)
  /-- Number of commits created so far by this system. -/
  commits : Nat
  /-- Branch names pushed to `origin`. -/
  pushed : List String

/-- A wall-clock instant as `datetime.now()` delivers it. -/
structure DateTime where
  year : Nat
  month : Nat
  day : Nat
  hour : Nat
  minute : Nat
  second : Nat

/-- Decimal rendering of a natural number (C's `%d`, what `strftime`
prints for `%Y`), via a fuel-based digit loop. -/
def natDigits : Nat → Nat → List Char
  | 0, _ => []
  | fuel + 1, n =>
    if n < 10 then [Nat.digitChar n]
    else natDigits fuel (n / 10) ++ [Nat.digitChar (n % 10)]

/-- Decimal rendering of a natural number. -/
def natStr (n : Nat) : String := ⟨natDigits (n + 1) n⟩

/-- `%m`/`%d`/`%H`/`%M`/`%S`: zero-padded to two digits. -/
def pad2 (n : Nat) : String := if n < 10 then "0" ++ natStr n else natStr n

/-- `datetime.now().strftime("%Y%m%d%H%M%S")`. -/
def strftimeYmdHMS (d : DateTime) : String :=
  natStr d.year ++ pad2 d.month ++ pad2 d.day ++
    pad2 d.hour ++ pad2 d.minute ++ pad2 d.second

/-- `create_unique_branch_and_push` from `git_lib.py` (lines 130–174;
the `git_operations.py` twin omits the initial base checkout/pull and
wraps failures in `GitOperationError`):

1. `git checkout base_branch` (fails — `GitCommandError` — when no such
   branch exists) and a best-effort `origin.pull()` whose failure is
   caught and ignored (`pullResult` is `some t` when the pull
   fast-forwards the base branch to tree `t`, `none` when it fails);
2. branch name `feature/user-story-update-<%Y%m%d%H%M%S>`;
3. `git checkout -b name`, falling back to plain `git checkout name`
   when the branch already exists;
4. write `updated_code` to `file_path`;
5. `git add -A`, then commit only if `repo.is_dirty()`;
6. push the branch to `origin` and return its name. -/
def create_unique_branch_and_push (st : GitState) (base_branch : String)
    (now : DateTime) (pullResult : Option (List (String × String)))
    (file_path updated_code _commit_message : String) :
    Except PyErr (String × GitState) :=
  if base_branch ∈ st.branches then
    -- 1. checkout base branch, then try to pull (failure ignored)
    let st1 := { st with currentBranch := base_branch,
                         workTree := st.trees base_branch }
    let st2 :=
      match pullResult with
      | some t =>
        { st1 with trees := fun b => if b = base_branch then t else st1.trees b,
                   workTree := t }
      | none => st1
    -- 2. unique branch name from the timestamp
    let new_branch_name := "feature/user-story-update-" ++ strftimeYmdHMS now
    -- 3. create & checkout, or fall back to checkout when it exists
    let st3 :=
      if new_branch_name ∈ st2.branches then
        { st2 with currentBranch := new_branch_name,
                   workTree := st2.trees new_branch_name }
      else
        { st2 with branches := new_branch_name :: st2.branches,
                   trees := fun b =>
                     if b = new_branch_name then st2.trees base_branch
                     else st2.trees b,
                   currentBranch := new_branch_name }
    -- 4. write the updated code
    let st4 := { st3 with workTree := upsert st3.workTree file_path updated_code }
    -- 5. stage everything; commit iff dirty
    let st5 :=
      if st4.workTree = st4.trees st4.currentBranch then st4
      else
        { st4 with trees := fun b =>
                     if b = st4.currentBranch then st4.workTree
                     else st4.trees b,
                   commits := st4.commits + 1 }
    -- 6. push the new branch
    let st6 := { st5 with pushed := new_branch_name :: st5.pushed }
    .ok (new_branch_name, st6)
  else
    .error (.gitOperationError s!"Git operation failed: checkout {base_branch}")

end GitLib

/-! ## Repository listings

`get_user_repositories` (`codefactory/services/git_operations.py`) and
`GitHubProvider.get_repositories` (`codefactory/services/git_provider.py`)
both map the repository objects delivered by the GitHub client into
dictionaries; only the former then sorts them
(`repos.sort(key=lambda x: x["full_name"].lower())`).  The GitHub API
response is an oracle input; Python's stable `list.sort` is modelled by
`List.insertionSort` (also stable), which yields the identical list for
the total preorder used here. -/

namespace GitOps

/-- A repository object as the GitHub client delivers it. -/
structure ApiRepo where
  name : String
  full_name : String
  html_url : String
  description : Option String
  private_ : Bool
  fork : Bool
  updated_at : Option String

/-- The dictionary built per repository by `get_user_repositories`. -/
structure RepoInfo where
  name : String
  full_name : String
  url : String
  description : String
  private_ : Bool
  fork : Bool
  updated_at : Option String
deriving DecidableEq

/-- The sort key comparison `x["full_name"].lower()`. -/
def fullNameLe (a b : RepoInfo) : Prop :=
  pyLower a.full_name ≤ pyLower b.full_name

instance : DecidableRel fullNameLe := fun a b =>
  inferInstanceAs (Decidable (pyLower a.full_name ≤ pyLower b.full_name))

/-- `get_user_repositories`: build the dictionaries in API order, then
`repos.sort(key=lambda x: x["full_name"].lower())`. -/
def get_user_repositories (apiRepos : List ApiRepo) : List RepoInfo :=
  let repos := apiRepos.map (fun r =>
    { name := r.name
      full_name := r.full_name
      url := r.html_url
      description := r.description.getD ""   -- `repo.description or ""`
      private_ := r.private_
      fork := r.fork
      updated_at := r.updated_at : RepoInfo })
  repos.insertionSort fullNameLe

end GitOps

namespace GitProvider

/-- The dictionary built per repository by
`GitHubProvider.get_repositories`. -/
structure ProviderRepo where
  name : String
  full_name : String
  url : String
  description : Option String
  private_ : Bool
  provider : String
deriving DecidableEq

/-- `GitHubProvider.get_repositories`: a list comprehension over the
API result — no sorting. -/
def GitHubProvider.get_repositories (apiRepos : List GitOps.ApiRepo) :
    List ProviderRepo :=
  apiRepos.map (fun repo =>
    { name := repo.name
      full_name := repo.full_name
      url := repo.html_url
      description := repo.description
      private_ := repo.private_
      provider := "github" })

end GitProvider

/-! ## Supporting lemmas: `strip` -/

theorem dropWhile_self (p : α → Bool) (l : List α) :
    (l.dropWhile p).dropWhile p = l.dropWhile p := by
  induction l with
  | nil => rfl
  | cons c t ih =>
    by_cases h : p c
    · rw [List.dropWhile_cons_of_pos h]; exact ih
    · rw [List.dropWhile_cons_of_neg h, List.dropWhile_cons_of_neg h]

theorem stripList_idem (l : List Char) : stripList (stripList l) = stripList l := by
  unfold stripList
  set a := l.dropWhile pyWs with ha_def
  set b := a.reverse.dropWhile pyWs with hb_def
  have hb : b.dropWhile pyWs = b := dropWhile_self pyWs a.reverse
  -- the head of `b.reverse` (if any) is the head of `a`, which is not whitespace
  have hbr : b.reverse.dropWhile pyWs = b.reverse := by
    cases hbe : b.reverse with
    | nil => rfl
    | cons c bs =>
      have hsuf : b <:+ a.reverse := List.dropWhile_suffix pyWs
      have hpre : b.reverse <+: a.reverse.reverse := List.reverse_prefix.mpr hsuf
      rw [List.reverse_reverse, hbe] at hpre
      obtain ⟨t, ht⟩ := hpre
      have hl : 0 < (l.dropWhile pyWs).length := by
        rw [← ha_def, ← ht]; simp
      have hget := List.dropWhile_get_zero_not pyWs l hl
      have hal : l.dropWhile pyWs = c :: (bs ++ t) := by
        rw [← ha_def, ← ht]; simp
      rw [List.get_eq_getElem] at hget
      simp only [hal, List.getElem_cons_zero] at hget
      exact List.dropWhile_cons_of_neg hget
  calc ((b.reverse.dropWhile pyWs).reverse.dropWhile pyWs).reverse
      = (b.reverse.reverse.dropWhile pyWs).reverse := by rw [hbr]
    _ = (b.dropWhile pyWs).reverse := by rw [List.reverse_reverse]
    _ = b.reverse := by rw [hb]

theorem pyStrip_idem (s : String) : pyStrip (pyStrip s) = pyStrip s := by
  simp only [pyStrip, stripList_idem]

/-- One application of `clean_code_block` always returns a
whitespace-stripped string. -/
theorem clean_code_block_stripped (x : String) :
    pyStrip (CodeGen.clean_code_block x) = CodeGen.clean_code_block x := by
  unfold CodeGen.clean_code_block
  by_cases h : (pyStartsWith (pyStrip x) "```" && pyEndsWith (pyStrip x) "```") = true
  · rw [if_pos h]
    exact pyStrip_idem _
  · rw [if_neg h]
    exact pyStrip_idem _

/-- When the stripped input is not fenced on both sides,
`clean_code_block` returns the stripped input. -/
theorem clean_code_block_of_not_fenced (y : String)
    (h : (pyStartsWith (pyStrip y) "```" && pyEndsWith (pyStrip y) "```") = false) :
    CodeGen.clean_code_block y = pyStrip y := by
  unfold CodeGen.clean_code_block
  rw [if_neg (by simp [h])]

/-! ## Claim C2 — idempotence of `cleanCodeBlock` -/

/-- C2 (counterexample): `cleanCodeBlock` is *not* idempotent.  On the
input `"```\n```python\nhello\n```\n```"` one application yields
`"```python\nhello\n```"` — itself fenced on both sides — and a second
application strips it further to `"hello"`. -/
theorem clean_code_block_not_idempotent :
    CodeGen.clean_code_block
        (CodeGen.clean_code_block "```\n```python\nhello\n```\n```") ≠
      CodeGen.clean_code_block "```\n```python\nhello\n```\n```" := by
  decide

/-- C2 (amended): `cleanCodeBlock` is idempotent on every input whose
first application does not produce a text that again both starts and
ends with a triple-backtick fence: for such `x`,
`cleanCodeBlock (cleanCodeBlock x) = cleanCodeBlock x`. -/
theorem clean_code_block_idem (x : String)
    (h : ¬(pyStartsWith (CodeGen.clean_code_block x) "```" = true ∧
           pyEndsWith (CodeGen.clean_code_block x) "```" = true)) :
    CodeGen.clean_code_block (CodeGen.clean_code_block x) =
      CodeGen.clean_code_block x := by
  have hs := clean_code_block_stripped x
  have hcond : (pyStartsWith (pyStrip (CodeGen.clean_code_block x)) "```" &&
      pyEndsWith (pyStrip (CodeGen.clean_code_block x)) "```") = false := by
    rw [hs]
    rcases hb1 : pyStartsWith (CodeGen.clean_code_block x) "```" with _ | _
    · simp
    · rcases hb2 : pyEndsWith (CodeGen.clean_code_block x) "```" with _ | _
      · simp
      · exact absurd ⟨hb1, hb2⟩ h
  rw [clean_code_block_of_not_fenced _ hcond, hs]

/-- C2 (witness): the amended idempotence applied at `"  hello  "`. -/
theorem clean_code_block_idem_witness :
    CodeGen.clean_code_block (CodeGen.clean_code_block "  hello  ") =
      CodeGen.clean_code_block "  hello  " :=
  clean_code_block_idem "  hello  " (by decide)

/-! ## Claim C3 — fence stripping behaviour of `cleanCodeBlock` -/

/-- The first occurrence of a character that is absent from `seg`
splits `seg ++ c :: rest` exactly at the boundary. -/
theorem splitOnceAux_single_char (c : Char) (seg rest : List Char)
    (h : ∀ x ∈ seg, x ≠ c) :
    splitOnceAux [c] (seg ++ c :: rest) = some (seg, rest) := by
  induction seg with
  | nil =>
    show splitOnceAux [c] (c :: rest) = some ([], rest)
    unfold splitOnceAux
    rw [if_pos]
    · simp
    · simp [List.isPrefixOf]
  | cons x xs ih =>
    have hx : x ≠ c := h x (by simp)
    show splitOnceAux [c] (x :: (xs ++ c :: rest)) = some (x :: xs, rest)
    unfold splitOnceAux
    rw [if_neg (by simp only [List.isPrefixOf, Bool.and_eq_true, beq_iff_eq]
                   exact fun hc => hx hc.1.symm)]
    rw [ih (fun y hy => h y (by simp [hy]))]

/-- C3 (counterexample): on the fence-free input `" hi "` the function
returns `"hi"`, not the input unchanged (surrounding whitespace is
always stripped). -/
theorem clean_code_block_not_unchanged :
    containsSub " hi " "```" = false ∧
      CodeGen.clean_code_block " hi " ≠ " hi " := by
  constructor
  · decide
  · decide

/-- C3 (amended): `cleanCodeBlock` strips the fence delimiters if and
only if the whitespace-stripped input both starts and ends with a
triple-backtick fence; otherwise (in particular for text with no fence
markers) it returns the input unchanged *up to trimming surrounding
whitespace*.  Concretely: (1) when the stripped input is not fenced on
both sides the result is exactly the stripped input, and (2) on a
fenced block `"```<lang>\n<body>\n```"` (language tag without
newlines) the result is the stripped body. -/
theorem clean_code_block_spec :
    (∀ x : String,
      (pyStartsWith (pyStrip x) "```" && pyEndsWith (pyStrip x) "```") = false →
        CodeGen.clean_code_block x = pyStrip x) ∧
    (∀ lang body : String, '\n' ∉ lang.data →
        CodeGen.clean_code_block ("```" ++ lang ++ "\n" ++ body ++ "\n```") =
          pyStrip body) := by
  constructor
  · exact fun x h => clean_code_block_of_not_fenced x h
  · intro lang body hlang
    set s : String := "```" ++ lang ++ "\n" ++ body ++ "\n```" with hs_def
    have hdata : s.data =
        ('`' :: '`' :: '`' :: lang.data) ++
          '\n' :: (body.data ++ ['\n', '`', '`', '`']) := by
      rw [hs_def]
      simp [String.data_append]
    -- the constructed text is already stripped: it starts and ends in '`'
    have hstrip : pyStrip s = s := by
      have h1 : s.data.dropWhile pyWs = s.data := by
        rw [hdata]
        exact List.dropWhile_cons_of_neg (by decide)
      have h2 : s.data.reverse.dropWhile pyWs = s.data.reverse := by
        have : s.data.reverse =
            '`' :: '`' :: '`' :: '\n' ::
              (body.data.reverse ++ ('\n' :: lang.data.reverse ++ ['`', '`', '`'])) := by
          rw [hdata]
          simp
        rw [this]
        exact List.dropWhile_cons_of_neg (by decide)
      show (⟨stripList s.data⟩ : String) = s
      unfold stripList
      rw [h1, h2, List.reverse_reverse]
    rw [CodeGen.clean_code_block, hstrip]
    have hstart : pyStartsWith s "```" = true := by
      unfold pyStartsWith
      rw [hdata]
      simp [List.isPrefixOf]
    have hend : pyEndsWith s "```" = true := by
      unfold pyEndsWith List.isSuffixOf
      rw [hdata]
      simp [List.isPrefixOf]
    rw [if_pos (by rw [hstart, hend]; rfl)]
    have hsplit : splitOnceAux ['\n'] s.data =
        some ('`' :: '`' :: '`' :: lang.data,
          body.data ++ ['\n', '`', '`', '`']) := by
      rw [hdata]
      exact splitOnceAux_single_char '\n' _ _ (by
        intro x hx
        simp only [List.mem_cons] at hx
        rcases hx with h | h | h | h
        · subst h; decide
        · subst h; decide
        · subst h; decide
        · exact fun hc => hlang (hc ▸ h))
    rw [hsplit]
    show pyStrip ⟨(body.data ++ ['\n', '`', '`', '`']).take
        ((body.data ++ ['\n', '`', '`', '`']).length - 3)⟩ = pyStrip body
    have hlen : (body.data ++ ['\n', '`', '`', '`']).length - 3 =
        (body.data ++ ['\n']).length := by
      simp
    have htake : (body.data ++ ['\n', '`', '`', '`']).take
        ((body.data ++ ['\n', '`', '`', '`']).length - 3) = body.data ++ ['\n'] := by
      rw [hlen]
      have : body.data ++ ['\n', '`', '`', '`'] =
          (body.data ++ ['\n']) ++ ['`', '`', '`'] := by simp
      rw [this, List.take_left]
    rw [htake]
    -- strip of `body ++ "\n"` equals strip of `body`
    unfold pyStrip stripList
    rcases hdw : body.data.dropWhile pyWs with _ | ⟨c, cs⟩
    · rw [List.dropWhile_append]
      simp [hdw]
      decide
    · rw [List.dropWhile_append, hdw]
      simp only [List.isEmpty_cons, Bool.false_eq_true, if_false]
      have hrev : (c :: cs ++ ['\n']).reverse = '\n' :: (c :: cs).reverse := by
        simp
      rw [hrev, List.dropWhile_cons_of_pos (by decide)]

/-- C3 (witness): the amended statement applied at the fence-free
input `" hi "` (first conjunct) and at the fenced block
`"```py\nbody\n```"` (second conjunct). -/
theorem clean_code_block_spec_witness :
    CodeGen.clean_code_block " hi " = pyStrip " hi " ∧
      CodeGen.clean_code_block "```py\nbody\n```" = pyStrip "body" :=
  ⟨clean_code_block_spec.1 " hi " (by decide),
   by
    have h := clean_code_block_spec.2 "py" "body" (by decide)
    have harg : ("```" ++ "py" ++ "\n" ++ "body" ++ "\n```" : String) =
        "```py\nbody\n```" := by decide
    rw [harg] at h
    exact h⟩

/-! ## Claim C8 — rejected URLs fail with the parse-failure error -/

/-- C8: every input rejected by `validate_github_url` (empty string,
missing host token, missing path segment, empty owner or name) makes
`parse_github_url` return the designated `GitOperationError` parse
failure — never a partial `(owner, name)` result and never any other
error kind. -/
theorem parse_github_url_rejected (url : String)
    (h : Validation.validate_github_url url = false) :
    ∃ m, GitOps.parse_github_url url = .error (.gitOperationError m) := by
  unfold GitOps.parse_github_url
  rw [h]
  exact ⟨_, rfl⟩

/-- C8 (witness): the rejection theorem applied at the empty string. -/
theorem parse_github_url_rejected_witness :
    ∃ m, GitOps.parse_github_url "" = .error (.gitOperationError m) :=
  parse_github_url_rejected "" (by decide)

/-! ## Claim C10 — every failure of `generate_code` is a `CodeGenerationError` -/

/-- C10: whatever the configured provider, the provider behaviour, the
JSON parser outcome, the template name, and the template parameters,
any error escaping `generate_code` — and hence also
`generate_code_for_user_story` and `generate_updated_code` — is a
`CodeGenerationError`; an unknown template, an unsupported provider
value (a `ValueError` inside the body), a provider transport error and
a JSON parse failure are all wrapped before reaching the caller. -/
theorem generate_code_error_type (envProvider : Option String)
    (complete : List CodeGen.Message → Except PyErr String)
    (jsonLoads : String → Option (List (String × String))) :
    (∀ template_name kwargs e,
        CodeGen.generate_code envProvider complete jsonLoads template_name kwargs =
          .error e → ∃ m, e = .codeGenerationError m) ∧
    (∀ user_story existing_code e,
        CodeGen.generate_updated_code envProvider complete jsonLoads
          user_story existing_code = .error e → ∃ m, e = .codeGenerationError m) ∧
    (∀ user_story e,
        CodeGen.generate_code_for_user_story envProvider complete jsonLoads
          user_story = .error e → ∃ m, e = .codeGenerationError m) := by
  have hcore : ∀ template_name kwargs e,
      CodeGen.generate_code envProvider complete jsonLoads template_name kwargs =
        .error e → ∃ m, e = .codeGenerationError m := by
    intro template_name kwargs e h
    unfold CodeGen.generate_code at h
    cases hb : CodeGen.generate_code_body envProvider complete jsonLoads
        template_name kwargs with
    | ok v => rw [hb] at h; exact absurd h (by simp)
    | error e2 =>
      rw [hb] at h
      simp only [Except.error.injEq] at h
      exact ⟨_, h.symm⟩
  exact ⟨hcore,
    fun us ec e h => hcore "update_code" _ e h,
    fun us e h => hcore "generate_code" _ e h⟩

/-- C10 (witness): the error-type theorem applied to a concrete failing
call (unknown template name). -/
theorem generate_code_error_type_witness :
    ∃ m, PyErr.codeGenerationError "Code generation failed: Template not found: nope" =
      PyErr.codeGenerationError m :=
  (generate_code_error_type (some "openai") (fun _ => .ok "x") (fun _ => none)).1
    "nope" [] _ (by rfl)

/-! ## Claim C4 — non-parseable update output fails without writes -/

/-- When the provider always answers `resp` and `resp` does not parse
as JSON, `generate_updated_code` fails with a `CodeGenerationError`. -/
theorem generate_updated_code_parse_failure (envProvider : Option String)
    (complete : List CodeGen.Message → Except PyErr String)
    (jsonLoads : String → Option (List (String × String)))
    (user_story : String) (existing_code : List (String × String))
    (resp : String)
    (hc : ∀ msgs, complete msgs = .ok resp)
    (hp : jsonLoads resp = none) :
    ∃ m, CodeGen.generate_updated_code envProvider complete jsonLoads
        user_story existing_code = .error (.codeGenerationError m) := by
  have hbody : ∃ e, CodeGen.generate_code_body envProvider complete jsonLoads
      "update_code"
      [("requirement", user_story), ("existing_code", CodeGen.reprDict existing_code)] =
      .error e := by
    unfold CodeGen.generate_code_body
    cases hT : CodeGen.TEMPLATES.lookup "update_code" with
    | none => exact ⟨_, rfl⟩
    | some template =>
      simp only []
      cases hF : CodeGen.pyFormat template.user_template
          [("requirement", user_story),
           ("existing_code", CodeGen.reprDict existing_code)] with
      | none => exact ⟨_, rfl⟩
      | some user_message =>
        simp only []
        cases hP : CodeGen.get_model_provider envProvider with
        | error e => exact ⟨_, rfl⟩
        | ok pk =>
          refine ⟨.codeGenerationError "Failed to parse response as JSON", ?_⟩
          simp [hc, hp]
  obtain ⟨e, he⟩ := hbody
  unfold CodeGen.generate_updated_code CodeGen.generate_code
  rw [he]
  exact ⟨_, rfl⟩

/-- C4: for every update request in which the Completion Provider
returns text that does not parse as a structured path→content object,
the update phase of `process_existing_repo` fails with a
`CodeGenerationError` (the GenerationFailure kind): no `FileSet` is
produced and no file write is performed on the checkout. -/
theorem update_phase_parse_failure (envProvider : Option String)
    (complete : List CodeGen.Message → Except PyErr String)
    (jsonLoads : String → Option (List (String × String)))
    (full_prompt : String) (codebase : List (String × String))
    (resp : String)
    (hc : ∀ msgs, complete msgs = .ok resp)
    (hp : jsonLoads resp = none) :
    ∃ m, App.update_phase envProvider complete jsonLoads full_prompt codebase =
      .error (.codeGenerationError m) := by
  obtain ⟨m, hm⟩ := generate_updated_code_parse_failure envProvider complete
    jsonLoads full_prompt codebase resp hc hp
  refine ⟨m, ?_⟩
  unfold App.update_phase
  rw [hm]

/-- C4 (witness): the update phase at a concrete provider that returns
non-JSON text. -/
theorem update_phase_parse_failure_witness :
    ∃ m, App.update_phase (some "openai") (fun _ => .ok "not json")
        (fun _ => none) "story" [("main.py", "x = 1")] =
      .error (.codeGenerationError m) :=
  update_phase_parse_failure (some "openai") (fun _ => .ok "not json")
    (fun _ => none) "story" [("main.py", "x = 1")] "not json"
    (fun _ => rfl) rfl

/-! ## Claim C5 — the snapshot respects ignore rules, the allow-list,
and per-file read failures -/

/-- C5: (1) the snapshot never contains a path matched by the compiled
ignore rules, and every contained path ends in the configured `.py`
extension; (2) a file whose read fails is simply omitted: the snapshot
equals the snapshot of the readable part of the walk. -/
theorem read_codebase_spec :
    (∀ (m : String → Bool) (walk : List App.FileEntry) (pc : String × String),
        pc ∈ App.read_codebase (some m) walk →
          m pc.1 = false ∧ pyEndsWith pc.1 ".py" = true) ∧
    (∀ (spec : Option (String → Bool)) (walk : List App.FileEntry),
        App.read_codebase spec walk =
          App.read_codebase spec (walk.filter (·.readable))) := by
  constructor
  · intro m walk
    induction walk with
    | nil => intro pc hpc; exact absurd hpc (by simp [App.read_codebase])
    | cons f rest ih =>
      intro pc hpc
      rw [App.read_codebase] at hpc
      by_cases h1 : pyEndsWith f.rel_path ".py" = true
      · rw [if_neg (by simp [h1])] at hpc
        by_cases h2 : App.matchesSpec (some m) f.rel_path = true
        · rw [if_pos h2] at hpc
          exact ih pc hpc
        · rw [if_neg h2] at hpc
          by_cases h3 : f.readable = true
          · rw [if_neg (by simp [h3])] at hpc
            rcases List.mem_cons.mp hpc with heq | hmem
            · subst heq
              exact ⟨Bool.eq_false_iff.mpr h2, h1⟩
            · exact ih pc hmem
          · rw [if_pos (by simp [Bool.eq_false_iff.mpr h3])] at hpc
            exact ih pc hpc
      · rw [if_pos (by simp [Bool.eq_false_iff.mpr h1])] at hpc
        exact ih pc hpc
  · intro spec walk
    induction walk with
    | nil => rfl
    | cons f rest ih =>
      by_cases h3 : f.readable = true
      · rw [List.filter_cons_of_pos (by simp [h3])]
        rw [App.read_codebase, App.read_codebase, ih]
      · rw [List.filter_cons_of_neg (by simp [h3])]
        rw [App.read_codebase]
        by_cases h1 : pyEndsWith f.rel_path ".py" = true
        · rw [if_neg (by simp [h1])]
          by_cases h2 : App.matchesSpec spec f.rel_path = true
          · rw [if_pos h2]; exact ih
          · rw [if_neg h2]
            rw [if_pos (by simp [Bool.eq_false_iff.mpr h3])]
            exact ih
        · rw [if_pos (by simp [Bool.eq_false_iff.mpr h1])]
          exact ih

/-- C5 (witness): the snapshot theorem applied to a concrete walk with
a `*.secret`-style matcher: the ignored readable file is absent from
the snapshot. -/
theorem read_codebase_spec_witness :
    ("config.secret.py", "token") ∉
      App.read_codebase (some (fun p => pyEndsWith p ".secret.py"))
        [⟨"main.py", "print(1)", true⟩,
         ⟨"config.secret.py", "token", true⟩] := by
  intro hmem
  have h := (read_codebase_spec.1 (fun p => pyEndsWith p ".secret.py") _ _ hmem).1
  simp only [] at h
  exact absurd h (by decide)

/-! ## Claim C9 — repository listings and sort order -/

instance : IsTotal GitOps.RepoInfo GitOps.fullNameLe :=
  ⟨fun a b => le_total (pyLower a.full_name) (pyLower b.full_name)⟩

instance : IsTrans GitOps.RepoInfo GitOps.fullNameLe :=
  ⟨fun _ _ _ hab hbc => le_trans hab hbc⟩

/-- C9 (counterexample): the provider-level listing
`GitHubProvider.get_repositories` does *not* sort: it preserves the
API order, so an API answer listing `"b/x"` before `"A/y"` yields a
list violating the case-insensitive full-name order. -/
theorem github_provider_listing_not_sorted :
    ¬ (GitProvider.GitHubProvider.get_repositories
        [⟨"x", "b/x", "u1", none, false, false, none⟩,
         ⟨"y", "A/y", "u2", none, false, false, none⟩]).Pairwise
      (fun a b => ¬ (pyLower b.full_name).data < (pyLower a.full_name).data) := by
  decide

/-- C9 (amended): the aggregating listing operation
`get_user_repositories` does return its repositories sorted by
full name, case-insensitively — for every API answer, each element's
lower-cased full name is `≤` the next one's; the provider-level
`GitHubProvider.get_repositories`, however, returns them in API
order without sorting. -/
theorem get_user_repositories_sorted (apiRepos : List GitOps.ApiRepo) :
    (GitOps.get_user_repositories apiRepos).Pairwise GitOps.fullNameLe := by
  unfold GitOps.get_user_repositories
  exact List.sorted_insertionSort GitOps.fullNameLe _

/-! ## Supporting lemmas: occurrence scanning, for the URL round-trip -/

theorem isPrefixOf_append_self (p l : List Char) : p.isPrefixOf (p ++ l) = true := by
  rw [List.isPrefixOf_iff_prefix]
  exact List.prefix_append p l

theorem splitOnceAux_cons_neg {pat : List Char} {c : Char} {cs : List Char}
    (h : pat.isPrefixOf (c :: cs) = false) :
    splitOnceAux pat (c :: cs) =
      (splitOnceAux pat cs).map (fun pr => (c :: pr.1, pr.2)) := by
  conv_lhs => unfold splitOnceAux
  rw [if_neg (by simp [h])]
  rcases hx : splitOnceAux pat cs with _ | ⟨pre, post⟩ <;> rfl

theorem splitOnceAux_cons_none_elim {pat : List Char} {c : Char} {cs : List Char}
    (h : splitOnceAux pat (c :: cs) = none) :
    pat.isPrefixOf (c :: cs) = false ∧ splitOnceAux pat cs = none := by
  unfold splitOnceAux at h
  by_cases hp : pat.isPrefixOf (c :: cs) = true
  · rw [if_pos hp] at h
    exact absurd h (by simp)
  · have hp' : pat.isPrefixOf (c :: cs) = false := by
      cases hv : pat.isPrefixOf (c :: cs)
      · rfl
      · exact absurd hv hp
    refine ⟨hp', ?_⟩
    rw [if_neg hp] at h
    rcases hs : splitOnceAux pat cs with _ | ⟨pre, post⟩
    · rfl
    · rw [hs] at h
      exact absurd h (by simp)

theorem splitOnceAux_none_of_missing {pat l : List Char} (c : Char)
    (hc : c ∈ pat) (hl : c ∉ l) : splitOnceAux pat l = none := by
  induction l with
  | nil => rfl
  | cons d ds ih =>
    have hpre : pat.isPrefixOf (d :: ds) = false := by
      cases hv : pat.isPrefixOf (d :: ds)
      · rfl
      · have : pat <+: d :: ds := List.isPrefixOf_iff_prefix.mp hv
        exact absurd (this.subset hc) hl
    rw [splitOnceAux_cons_neg hpre, ih (fun hm => hl (List.mem_cons_of_mem d hm))]
    rfl

/-- When no occurrence of `pat` exists in `l`, no suffix of `l` starts
with `pat` either. -/
theorem splitOnceAux_suffix_none {pat l : List Char} (hp : pat ≠ [])
    (h : splitOnceAux pat l = none) :
    ∀ t, t <:+ l → pat.isPrefixOf t = false := by
  induction l with
  | nil =>
    intro t ht
    rw [List.suffix_nil.mp ht]
    cases pat with
    | nil => exact absurd rfl hp
    | cons p ps => rfl
  | cons c cs ih =>
    obtain ⟨h1, h2⟩ := splitOnceAux_cons_none_elim h
    intro t ht
    rcases List.suffix_cons_iff.mp ht with heq | hsuf
    · rw [heq]; exact h1
    · exact ih h2 t hsuf

theorem prefix_take_of_le {pat l r : List Char} (h : pat <+: l ++ r)
    (hl : pat.length ≤ l.length) : pat <+: l := by
  have h1 : pat = (l ++ r).take pat.length := List.prefix_iff_eq_take.mp h
  rw [List.take_append_eq_append_take] at h1
  have h2 : pat.length - l.length = 0 := by omega
  rw [h2, List.take_zero, List.append_nil] at h1
  rw [h1]
  exact List.take_prefix _ _

/-- A character absent from `pat` blocks occurrences across it: a
prefix of `t ++ c :: rest` that avoids `c` lies inside `t`. -/
theorem prefix_through_boundary {pat t rest : List Char} {c : Char}
    (hc : c ∉ pat) (h : pat <+: t ++ c :: rest) : pat <+: t := by
  rcases le_or_lt pat.length t.length with hle | hlt
  · exact prefix_take_of_le h hle
  · obtain ⟨r, hr⟩ := h
    have hb : t.length < (pat ++ r).length := by
      rw [hr]; simp
    have hb2 : t.length < (t ++ c :: rest).length := by simp
    have hval : (pat ++ r)[t.length] = (t ++ c :: rest)[t.length] := by
      simp only [hr]
    rw [List.getElem_append_left hlt] at hval
    rw [List.getElem_append_right (Nat.le_refl t.length)] at hval
    simp only [Nat.sub_self, List.getElem_cons_zero] at hval
    exact absurd (hval ▸ List.getElem_mem _) hc

/-- A pattern ending in `c` (with `c` nowhere else in it) can only
match against `t ++ c :: rest` inside `t`, or exactly at the boundary
(`t = q`). -/
theorem prefix_boundary_end {q t rest : List Char} {c : Char}
    (hc : c ∉ q) (h : (q ++ [c]) <+: t ++ c :: rest) :
    (q ++ [c]) <+: t ∨ t = q := by
  rcases le_or_lt (q ++ [c]).length t.length with hle | hlt
  · exact Or.inl (prefix_take_of_le h hle)
  · right
    have hql : t.length ≤ q.length := by simp at hlt; omega
    obtain ⟨r, hr⟩ := h
    have hb1 : t.length < ((q ++ [c]) ++ r).length := by simp; omega
    have hb2 : t.length < (t ++ c :: rest).length := by simp
    have hval : ((q ++ [c]) ++ r)[t.length] = (t ++ c :: rest)[t.length] := by
      simp only [hr]
    rw [List.getElem_append_right (Nat.le_refl t.length)] at hval
    simp only [Nat.sub_self, List.getElem_cons_zero] at hval
    rcases Nat.lt_or_ge t.length q.length with hq | hq
    · rw [List.getElem_append_left (by simp; omega)] at hval
      rw [List.getElem_append_left hq] at hval
      exact absurd (hval ▸ List.getElem_mem _) hc
    · have hlen : t.length = q.length := by omega
      have h1 : q ++ [c] = (t ++ c :: rest).take (q.length + 1) := by
        have h0 := List.prefix_iff_eq_take.mp ⟨r, hr⟩
        rw [show (q ++ [c]).length = q.length + 1 by simp] at h0
        exact h0
      rw [List.take_append_eq_append_take] at h1
      have h2 : t.take (q.length + 1) = t := List.take_of_length_le (by omega)
      have h3 : q.length + 1 - t.length = 1 := by omega
      rw [h2, h3] at h1
      have h1' : q ++ [c] = t ++ [c] := h1
      exact (List.append_inj' h1' rfl).1.symm

/-- Scanning through a segment in which no occurrence of `pat` starts
(even allowing the occurrence to continue into `rest`) just prepends
the segment to the scan of the remainder. -/
theorem splitOnceAux_append_scan {pat : List Char} (seg rest : List Char)
    (h : ∀ t, t <:+ seg → t ≠ [] → pat.isPrefixOf (t ++ rest) = false) :
    splitOnceAux pat (seg ++ rest) =
      (splitOnceAux pat rest).map (fun pr => (seg ++ pr.1, pr.2)) := by
  induction seg with
  | nil =>
    rw [List.nil_append]
    rcases hx : splitOnceAux pat rest with _ | ⟨pre, post⟩ <;> rfl
  | cons c cs ih =>
    have h1 : pat.isPrefixOf (c :: (cs ++ rest)) = false :=
      h (c :: cs) (List.suffix_refl _) (by simp)
    show splitOnceAux pat (c :: (cs ++ rest)) = _
    rw [splitOnceAux_cons_neg h1]
    rw [ih (fun t ht hne => h t (ht.trans (List.suffix_cons c cs)) hne)]
    rcases hx : splitOnceAux pat rest with _ | ⟨pre, post⟩ <;> rfl

theorem splitAll_step {pat : List Char} (f : Nat) {pre post l : List Char}
    (h : splitOnceAux pat l = some (pre, post)) :
    splitAll pat (f + 1) l = pre :: splitAll pat f post := by
  conv_lhs => unfold splitAll
  rw [h]

theorem splitAll_stop {pat : List Char} (f : Nat) {l : List Char}
    (h : splitOnceAux pat l = none) : splitAll pat f l = [l] := by
  cases f with
  | zero => rfl
  | succ f' =>
    unfold splitAll
    rw [h]

/-! ## Supporting lemmas: `replace(".git", "")` -/

theorem replaceGitAux_nil (f : Nat) : replaceGitAux f [] = [] := by
  cases f with
  | zero => rfl
  | succ f' => rfl

/-- Without any occurrence of `".git"`, `replace` is the identity. -/
theorem replaceGit_no_occ {l : List Char} (h : splitOnceAux gitPat l = none) :
    ∀ f, l.length ≤ f → replaceGitAux f l = l := by
  induction l with
  | nil => intro f _; exact replaceGitAux_nil f
  | cons c cs ih =>
    obtain ⟨h1, h2⟩ := splitOnceAux_cons_none_elim h
    intro f hf
    cases f with
    | zero => simp at hf
    | succ f' =>
      unfold replaceGitAux
      rw [if_neg (by simp [h1])]
      rw [ih h2 f' (by simp at hf; omega)]

/-- Appending `".git"` to an occurrence-free text and replacing removes
exactly the appended suffix: no occurrence can straddle the boundary
because `".git"` starts with `'.'`, not with a suffix of itself. -/
theorem replaceGit_append_git {l : List Char} (h : splitOnceAux gitPat l = none) :
    ∀ f, l.length + 4 ≤ f → replaceGitAux f (l ++ gitPat) = l := by
  induction l with
  | nil =>
    intro f hf
    match f, hf with
    | f' + 1, _ =>
      show replaceGitAux (f' + 1) ('.' :: ['g', 'i', 't']) = []
      unfold replaceGitAux
      rw [if_pos (by decide)]
      exact replaceGitAux_nil f'
  | cons c cs ih =>
    obtain ⟨h1, h2⟩ := splitOnceAux_cons_none_elim h
    intro f hf
    match f, hf with
    | f' + 1, hf =>
      have hfalse : gitPat.isPrefixOf (c :: (cs ++ gitPat)) = false := by
        by_cases hlen : 4 ≤ (c :: cs).length
        · cases hv : gitPat.isPrefixOf (c :: (cs ++ gitPat))
          · rfl
          · have hpre : gitPat <+: (c :: cs) ++ gitPat :=
              List.isPrefixOf_iff_prefix.mp (by rw [List.cons_append]; exact hv)
            have : gitPat <+: c :: cs := prefix_take_of_le hpre hlen
            rw [← List.isPrefixOf_iff_prefix] at this
            rw [h1] at this
            exact absurd this (by simp)
        · rcases cs with _ | ⟨a, _ | ⟨b, _ | ⟨d, ds⟩⟩⟩
          · simp [gitPat, List.isPrefixOf]
          · simp [gitPat, List.isPrefixOf]
          · simp [gitPat, List.isPrefixOf]
          · exact absurd (by simp) hlen
      show replaceGitAux (f' + 1) (c :: (cs ++ gitPat)) = c :: cs
      unfold replaceGitAux
      rw [if_neg (by simp [hfalse])]
      rw [ih h2 f' (by simp at hf ⊢; omega)]

theorem pyReplaceGit_no_occ {s : String} (h : splitOnceAux gitPat s.data = none) :
    pyReplaceGit s = s := by
  unfold pyReplaceGit
  rw [replaceGit_no_occ h s.data.length (Nat.le_refl _)]

theorem pyReplaceGit_append_git {s : String} (h : splitOnceAux gitPat s.data = none) :
    pyReplaceGit (s ++ ".git") = s := by
  unfold pyReplaceGit
  have hd : (s ++ ".git").data = s.data ++ gitPat := rfl
  rw [hd, replaceGit_append_git h _ (by simp [gitPat])]

/-! ## Supporting lemmas: decimal timestamps -/

theorem digitChar_isDigit : ∀ k, k < 10 → (Nat.digitChar k).isDigit = true := by
  decide

theorem natDigits_all_digits (f n : Nat) :
    (GitLib.natDigits f n).all Char.isDigit = true := by
  induction f generalizing n with
  | zero => rfl
  | succ f' ih =>
    unfold GitLib.natDigits
    by_cases h : n < 10
    · rw [if_pos h]
      simp [digitChar_isDigit n h]
    · rw [if_neg h]
      rw [List.all_append]
      rw [ih (n / 10)]
      simp [digitChar_isDigit (n % 10) (Nat.mod_lt n (by omega))]

theorem natDigits_len_one (f n : Nat) (hf : 0 < f) (h : n < 10) :
    (GitLib.natDigits f n).length = 1 := by
  cases f with
  | zero => omega
  | succ f' =>
    unfold GitLib.natDigits
    rw [if_pos h]
    rfl

theorem natDigits_len_step (f' n : Nat) (h : ¬ n < 10) :
    (GitLib.natDigits (f' + 1) n).length =
      (GitLib.natDigits f' (n / 10)).length + 1 := by
  conv_lhs => rw [GitLib.natDigits]
  rw [if_neg h, List.length_append]
  rfl

theorem natStr_year_len (y : Nat) (h1 : 1000 ≤ y) (h2 : y < 10000) :
    (GitLib.natStr y).length = 4 := by
  show (GitLib.natDigits (y + 1) y).length = 4
  obtain ⟨f, hf⟩ : ∃ f, y + 1 = f + 3 + 1 := ⟨y - 3, by omega⟩
  rw [hf]
  rw [natDigits_len_step _ _ (by omega)]
  rw [natDigits_len_step _ _ (by omega)]
  rw [natDigits_len_step _ _ (by omega)]
  rw [natDigits_len_one _ _ (by omega) (by omega)]

theorem pad2_spec (m : Nat) (h : m < 100) :
    (GitLib.pad2 m).length = 2 ∧ (GitLib.pad2 m).data.all Char.isDigit = true := by
  unfold GitLib.pad2
  by_cases hm : m < 10
  · rw [if_pos hm]
    constructor
    · show ('0' :: GitLib.natDigits (m + 1) m).length = 2
      unfold GitLib.natDigits
      rw [if_pos hm]
      rfl
    · show ('0' :: GitLib.natDigits (m + 1) m).all Char.isDigit = true
      rw [List.all_cons]
      rw [natDigits_all_digits]
      rfl
  · rw [if_neg hm]
    constructor
    · show (GitLib.natDigits (m + 1) m).length = 2
      obtain ⟨f, hf⟩ : ∃ f, m + 1 = f + 1 + 1 := ⟨m - 1, by omega⟩
      rw [hf]
      rw [natDigits_len_step _ _ (by omega)]
      rw [natDigits_len_one _ _ (by omega) (by omega)]
    · exact natDigits_all_digits _ _

theorem strftime_spec (d : GitLib.DateTime) (hy1 : 1000 ≤ d.year)
    (hy2 : d.year < 10000) (hmo : d.month < 100) (hda : d.day < 100)
    (hho : d.hour < 100) (hmi : d.minute < 100) (hse : d.second < 100) :
    (GitLib.strftimeYmdHMS d).length = 14 ∧
      (GitLib.strftimeYmdHMS d).data.all Char.isDigit = true := by
  obtain ⟨hm1, hm2⟩ := pad2_spec d.month hmo
  obtain ⟨hd1, hd2⟩ := pad2_spec d.day hda
  obtain ⟨hh1, hh2⟩ := pad2_spec d.hour hho
  obtain ⟨hi1, hi2⟩ := pad2_spec d.minute hmi
  obtain ⟨hs1, hs2⟩ := pad2_spec d.second hse
  have hy := natStr_year_len d.year hy1 hy2
  have hyd : (GitLib.natStr d.year).data.all Char.isDigit = true :=
    natDigits_all_digits _ _
  constructor
  · unfold GitLib.strftimeYmdHMS
    simp only [String.length_append]
    omega
  · unfold GitLib.strftimeYmdHMS
    simp only [String.data_append, List.all_append]
    rw [hyd, hm2, hd2, hh2, hi2, hs2]
    rfl

/-! ## Claim C6 — branch names produced by the publish operation -/

/-- C6: whenever the base branch exists (and the clock reads a
four-digit year, with the calendar fields in their `strftime` ranges),
`create_unique_branch_and_push` succeeds and returns the branch name
`feature/user-story-update-<ts>` where `<ts>` is exactly 14 decimal
digits; this holds whether or not a branch of that name already exists
— in the collision case the branch is checked out rather than the
operation failing — and the returned branch is the one checked out. -/
theorem create_unique_branch_format (st : GitLib.GitState) (base : String)
    (now : GitLib.DateTime) (pull : Option (List (String × String)))
    (fp code cm : String) (hbase : base ∈ st.branches)
    (hy1 : 1000 ≤ now.year) (hy2 : now.year < 10000) (hmo : now.month < 100)
    (hda : now.day < 100) (hho : now.hour < 100) (hmi : now.minute < 100)
    (hse : now.second < 100) :
    ∃ st', GitLib.create_unique_branch_and_push st base now pull fp code cm =
        .ok ("feature/user-story-update-" ++ GitLib.strftimeYmdHMS now, st') ∧
      (GitLib.strftimeYmdHMS now).length = 14 ∧
      (GitLib.strftimeYmdHMS now).data.all Char.isDigit = true ∧
      st'.currentBranch =
        "feature/user-story-update-" ++ GitLib.strftimeYmdHMS now := by
  obtain ⟨hlen, hdig⟩ := strftime_spec now hy1 hy2 hmo hda hho hmi hse
  unfold GitLib.create_unique_branch_and_push
  rw [if_pos hbase]
  refine ⟨_, rfl, hlen, hdig, ?_⟩
  cases pull with
  | none =>
    dsimp only
    repeat' split
    all_goals rfl
  | some t =>
    dsimp only
    repeat' split
    all_goals rfl

/-- C6 (witness): a concrete publish on a repository whose only branch
is `main`, at `2026-10-12 09:30:00`. -/
theorem create_unique_branch_format_witness :
    ∃ st', GitLib.create_unique_branch_and_push
        ⟨["main"], fun _ => [], "main", [], 0, []⟩ "main"
        ⟨2026, 10, 12, 9, 30, 0⟩ none "app.py" "x = 1" "msg" =
        .ok ("feature/user-story-update-" ++
          GitLib.strftimeYmdHMS ⟨2026, 10, 12, 9, 30, 0⟩, st') ∧
      (GitLib.strftimeYmdHMS ⟨2026, 10, 12, 9, 30, 0⟩).length = 14 ∧
      (GitLib.strftimeYmdHMS ⟨2026, 10, 12, 9, 30, 0⟩).data.all
        Char.isDigit = true ∧
      st'.currentBranch = "feature/user-story-update-" ++
        GitLib.strftimeYmdHMS ⟨2026, 10, 12, 9, 30, 0⟩ :=
  create_unique_branch_format ⟨["main"], fun _ => [], "main", [], 0, []⟩
    "main" ⟨2026, 10, 12, 9, 30, 0⟩ none "app.py" "x = 1" "msg"
    (by decide) (by decide) (by decide) (by decide) (by decide) (by decide)
    (by decide) (by decide)

/-! ## Claim C7 — commit iff dirty, push regardless -/

/-- C7: in the publish operation, after staging, a commit is created
if and only if the working tree differs from the checked-out branch
tip — writing content identical to what the branch already holds adds
no commit — and the new branch is pushed to `origin` in either case.
`tip` below is the tree at the tip of the branch the writes land on
(the pre-existing branch of the same name, or the possibly-pulled base
branch a fresh branch is cut from). -/
theorem create_unique_branch_commit_push (st : GitLib.GitState) (base : String)
    (now : GitLib.DateTime) (pull : Option (List (String × String)))
    (fp code cm : String) (hbase : base ∈ st.branches) :
    ∃ st', GitLib.create_unique_branch_and_push st base now pull fp code cm =
        .ok ("feature/user-story-update-" ++ GitLib.strftimeYmdHMS now, st') ∧
      (let trees2 : String → List (String × String) := fun b =>
        match pull with
        | some t => if b = base then t else st.trees b
        | none => st.trees b
       let name := "feature/user-story-update-" ++ GitLib.strftimeYmdHMS now
       let tip := if name ∈ st.branches then trees2 name else trees2 base
       st'.commits =
        st.commits + (if GitLib.upsert tip fp code = tip then 0 else 1)) ∧
      ("feature/user-story-update-" ++ GitLib.strftimeYmdHMS now) ∈ st'.pushed := by
  unfold GitLib.create_unique_branch_and_push
  rw [if_pos hbase]
  refine ⟨_, rfl, ?_, ?_⟩
  · cases pull with
    | none =>
      dsimp only
      by_cases hmem :
          ("feature/user-story-update-" ++ GitLib.strftimeYmdHMS now) ∈ st.branches
      · by_cases heq : GitLib.upsert
            (st.trees ("feature/user-story-update-" ++ GitLib.strftimeYmdHMS now))
            fp code =
            st.trees ("feature/user-story-update-" ++ GitLib.strftimeYmdHMS now)
        · simp [hmem, heq]
        · simp [hmem, heq]
      · by_cases heq : GitLib.upsert (st.trees base) fp code = st.trees base
        · simp [hmem, heq]
        · simp [hmem, heq]
    | some t =>
      dsimp only
      by_cases hmem :
          ("feature/user-story-update-" ++ GitLib.strftimeYmdHMS now) ∈ st.branches
      · by_cases hbb :
            ("feature/user-story-update-" ++ GitLib.strftimeYmdHMS now) = base
        · by_cases heq : GitLib.upsert t fp code = t
          · simp [hmem, hbb, heq, hbase]
          · simp [hmem, hbb, heq, hbase]
        · by_cases heq : GitLib.upsert
              (st.trees ("feature/user-story-update-" ++ GitLib.strftimeYmdHMS now))
              fp code =
              st.trees ("feature/user-story-update-" ++ GitLib.strftimeYmdHMS now)
          · simp [hmem, hbb, heq]
          · simp [hmem, hbb, heq]
      · by_cases heq : GitLib.upsert t fp code = t
        · simp [hmem, heq]
        · simp [hmem, heq]
  · cases pull with
    | none =>
      dsimp only
      repeat' split
      all_goals exact List.mem_cons_self _ _
    | some t =>
      dsimp only
      repeat' split
      all_goals exact List.mem_cons_self _ _

/-! ## Claim C1 — URL round-trip through `parse_github_url` -/

/-- The HTTPS hosting-URL form constructed from `(owner, name)`. -/
def httpsUrl (owner name : String) : String :=
  "https://github.com/" ++ owner ++ "/" ++ name

/-- The SSH hosting-URL form constructed from `(owner, name)`. -/
def sshUrl (owner name : String) : String :=
  "git@github.com:" ++ owner ++ "/" ++ name

theorem no_slash_of_ownerChars {l : List Char}
    (h : l.all Validation.isOwnerChar = true) : '/' ∉ l := fun hm =>
  absurd (List.all_eq_true.mp h _ hm) (by decide)

theorem no_colon_of_ownerChars {l : List Char}
    (h : l.all Validation.isOwnerChar = true) : ':' ∉ l := fun hm =>
  absurd (List.all_eq_true.mp h _ hm) (by decide)

theorem data_ne_nil_of_ne_empty {s : String} (h : s ≠ "") : s.data ≠ [] :=
  fun hd => h (show s = "" from congrArg String.mk hd)

theorem none_of_not_contains {s pat : String} (h : containsSub s pat = false) :
    splitOnceAux pat.data s.data = none := by
  unfold containsSub at h
  rcases hx : splitOnceAux pat.data s.data with _ | v
  · rfl
  · rw [hx] at h
    exact absurd h (by simp)

theorem not_suffix_of_not_endsWith {s pat : String}
    (h : pyEndsWith s pat = false) : ¬ pat.data <:+ s.data := by
  intro hsuf
  unfold pyEndsWith at h
  have hs : pat.data.isSuffixOf s.data = true := by
    rw [List.isSuffixOf_iff_suffix]
    exact hsuf
  rw [hs] at h
  exact absurd h (by simp)

/-- No occurrence of `"github.com/"` inside the `owner/name` tail of a
URL: its `/` could only align with the owner–name separator, which
would force the owner to end in `github.com`. -/
theorem splitOnce_gdata_tail {o n : List Char}
    (ho : o.all Validation.isOwnerChar = true)
    (hsuf : ¬ "github.com".data <:+ o)
    (hn : n.all Validation.isOwnerChar = true) :
    splitOnceAux "github.com/".data (o ++ '/' :: n) = none := by
  have hrest : splitOnceAux "github.com/".data ('/' :: n) = none := by
    rw [splitOnceAux_cons_neg (by simp [List.isPrefixOf])]
    rw [splitOnceAux_none_of_missing '/' (by decide) (no_slash_of_ownerChars hn)]
    rfl
  rw [splitOnceAux_append_scan o ('/' :: n) ?_, hrest]
  · rfl
  intro t ht hne
  cases hv : List.isPrefixOf "github.com/".data (t ++ '/' :: n) with
  | false => rfl
  | true =>
    exfalso
    have hpre := List.isPrefixOf_iff_prefix.mp hv
    rw [show "github.com/".data = "github.com".data ++ ['/'] from rfl] at hpre
    rcases prefix_boundary_end (by decide) hpre with hleft | heq
    · have hslash : '/' ∈ t := hleft.subset (by simp)
      exact absurd (ht.subset hslash) (no_slash_of_ownerChars ho)
    · exact hsuf (heq ▸ ht)

/-- No occurrence of `"github.com:"` in the tail: it would need a `:`. -/
theorem splitOnce_colon_tail {o n : List Char}
    (ho : o.all Validation.isOwnerChar = true)
    (hn : n.all Validation.isOwnerChar = true) :
    splitOnceAux "github.com:".data (o ++ '/' :: n) = none := by
  apply splitOnceAux_none_of_missing ':' (by decide)
  intro hm
  rcases List.mem_append.mp hm with hmo | hmn
  · exact no_colon_of_ownerChars ho hmo
  · rcases List.mem_cons.mp hmn with heq | hmn'
    · exact absurd heq (by decide)
    · exact no_colon_of_ownerChars hn hmn'

/-- No occurrence of `".git"` in the tail when owner and name are
`".git"`-free: `".git"` contains no `/`, so no occurrence straddles
the separator. -/
theorem splitOnce_git_tail {o n : List Char}
    (ho : splitOnceAux gitPat o = none) (hn : splitOnceAux gitPat n = none) :
    splitOnceAux gitPat (o ++ '/' :: n) = none := by
  have hrest : splitOnceAux gitPat ('/' :: n) = none := by
    rw [splitOnceAux_cons_neg (by simp [gitPat, List.isPrefixOf])]
    rw [hn]
    rfl
  rw [splitOnceAux_append_scan o ('/' :: n) ?_, hrest]
  · rfl
  intro t ht hne
  cases hv : List.isPrefixOf gitPat (t ++ '/' :: n) with
  | false => rfl
  | true =>
    exfalso
    have hpre := List.isPrefixOf_iff_prefix.mp hv
    have hin : gitPat <+: t := prefix_through_boundary (by decide) hpre
    rw [← List.isPrefixOf_iff_prefix] at hin
    rw [splitOnceAux_suffix_none (by decide) ho t ht] at hin
    exact absurd hin (by simp)

theorem data_httpsUrl (owner name : String) : (httpsUrl owner name).data =
    "https://github.com/".data ++ (owner.data ++ '/' :: name.data) := by
  simp [httpsUrl]

theorem data_httpsUrl_git (owner name : String) :
    (httpsUrl owner name ++ ".git").data =
      "https://github.com/".data ++
        (owner.data ++ '/' :: (name.data ++ ['.', 'g', 'i', 't'])) := by
  simp [httpsUrl]

theorem data_sshUrl (owner name : String) : (sshUrl owner name).data =
    "git@github.com:".data ++ (owner.data ++ '/' :: name.data) := by
  simp [sshUrl]

theorem data_sshUrl_git (owner name : String) :
    (sshUrl owner name ++ ".git").data =
      "git@github.com:".data ++
        (owner.data ++ '/' :: (name.data ++ ['.', 'g', 'i', 't'])) := by
  simp [sshUrl]

/-- The host-tail test accepts `owner.data ++ '/' :: rest` whenever the
owner is a non-empty `[\w.-]` string, no `/` occurs in it, and `rest`
is a non-empty `[\w.-]` string. -/
theorem tailOK_of_parts {o r : List Char} (ho1 : o ≠ [])
    (ho2 : o.all Validation.isOwnerChar = true) (hr1 : r ≠ [])
    (hr2 : r.all Validation.isOwnerChar = true) :
    Validation.tailOK (o ++ '/' :: r) = true := by
  unfold Validation.tailOK
  rw [splitOnceAux_single_char '/' o r
    (fun x hx hxe => no_slash_of_ownerChars ho2 (hxe ▸ hx))]
  simp [ho2, hr2, List.isEmpty_iff, ho1, hr1]

theorem validate_httpsUrl (owner name : String) (ho1 : owner.data ≠ [])
    (ho2 : owner.data.all Validation.isOwnerChar = true)
    (hn1 : name.data ≠ []) (hn2 : name.data.all Validation.isOwnerChar = true) :
    Validation.validate_github_url (httpsUrl owner name) = true := by
  have hdata := data_httpsUrl owner name
  have hne : ¬ (httpsUrl owner name = "") := by
    intro he
    have hd := congrArg String.data he
    rw [hdata] at hd
    simp at hd
  unfold Validation.validate_github_url Validation.afterPrefix?
  rw [if_neg hne, hdata]
  rw [if_pos (isPrefixOf_append_self _ _), List.drop_left]
  dsimp only
  rw [tailOK_of_parts ho1 ho2 (by simp [hn1]) hn2]
  rfl

theorem validate_httpsUrl_git (owner name : String) (ho1 : owner.data ≠ [])
    (ho2 : owner.data.all Validation.isOwnerChar = true)
    (_hn1 : name.data ≠ []) (hn2 : name.data.all Validation.isOwnerChar = true) :
    Validation.validate_github_url (httpsUrl owner name ++ ".git") = true := by
  have hdata := data_httpsUrl_git owner name
  have hne : ¬ (httpsUrl owner name ++ ".git" = "") := by
    intro he
    have hd := congrArg String.data he
    rw [hdata] at hd
    simp at hd
  unfold Validation.validate_github_url Validation.afterPrefix?
  rw [if_neg hne, hdata]
  rw [if_pos (isPrefixOf_append_self _ _), List.drop_left]
  dsimp only
  rw [tailOK_of_parts ho1 ho2 (by simp) (by simp [hn2]; decide)]
  rfl

theorem validate_sshUrl (owner name : String) (ho1 : owner.data ≠ [])
    (ho2 : owner.data.all Validation.isOwnerChar = true)
    (hn1 : name.data ≠ []) (hn2 : name.data.all Validation.isOwnerChar = true) :
    Validation.validate_github_url (sshUrl owner name) = true := by
  have hdata := data_sshUrl owner name
  have hne : ¬ (sshUrl owner name = "") := by
    intro he
    have hd := congrArg String.data he
    rw [hdata] at hd
    simp at hd
  unfold Validation.validate_github_url Validation.afterPrefix?
  rw [if_neg hne, hdata]
  rw [if_neg (by simp [List.isPrefixOf])]
  rw [if_neg (by simp [List.isPrefixOf])]
  rw [if_pos (isPrefixOf_append_self _ _), List.drop_left]
  dsimp only
  rw [tailOK_of_parts ho1 ho2 (by simp [hn1]) hn2]
  rfl

theorem validate_sshUrl_git (owner name : String) (ho1 : owner.data ≠ [])
    (ho2 : owner.data.all Validation.isOwnerChar = true)
    (_hn1 : name.data ≠ []) (hn2 : name.data.all Validation.isOwnerChar = true) :
    Validation.validate_github_url (sshUrl owner name ++ ".git") = true := by
  have hdata := data_sshUrl_git owner name
  have hne : ¬ (sshUrl owner name ++ ".git" = "") := by
    intro he
    have hd := congrArg String.data he
    rw [hdata] at hd
    simp at hd
  unfold Validation.validate_github_url Validation.afterPrefix?
  rw [if_neg hne, hdata]
  rw [if_neg (by simp [List.isPrefixOf])]
  rw [if_neg (by simp [List.isPrefixOf])]
  rw [if_pos (isPrefixOf_append_self _ _), List.drop_left]
  dsimp only
  rw [tailOK_of_parts ho1 ho2 (by simp) (by simp [hn2]; decide)]
  rfl

theorem unpackParts_ok (github_url owner name : String) (hslash : '/' ∉ owner.data)
    (ho1 : owner ≠ "") (hn1 : name ≠ "") :
    GitOps.unpackParts github_url ⟨owner.data ++ '/' :: name.data⟩ =
      .ok (owner, name) := by
  have hsp : splitOnceAux ['/'] (owner.data ++ '/' :: name.data) =
      some (owner.data, name.data) :=
    splitOnceAux_single_char '/' _ _ (fun x hx hxe => hslash (hxe ▸ hx))
  have hne : (⟨owner.data ++ '/' :: name.data⟩ : String) ≠ "" := by
    intro he
    have hd := congrArg String.data he
    simp at hd
  have hcon : containsSub ⟨owner.data ++ '/' :: name.data⟩ "/" = true := by
    unfold containsSub
    rw [show (⟨owner.data ++ '/' :: name.data⟩ : String).data =
      owner.data ++ '/' :: name.data from rfl]
    rw [show ("/" : String).data = ['/'] from rfl]
    rw [hsp]
    rfl
  unfold GitOps.unpackParts
  rw [if_neg (by simp [hne, hcon])]
  rw [show (⟨owner.data ++ '/' :: name.data⟩ : String).data =
    owner.data ++ '/' :: name.data from rfl]
  rw [hsp]
  dsimp only
  rw [if_neg (by
    simp [List.isEmpty_iff, data_ne_nil_of_ne_empty ho1,
      data_ne_nil_of_ne_empty hn1])]

/-- `parse_github_url` on any validated URL whose `.git`-removal yields
the clean HTTPS form recovers `(owner, name)`. -/
theorem parse_of_cleaned_https (url owner name : String)
    (hval : Validation.validate_github_url url = true)
    (hrep : pyReplaceGit url = httpsUrl owner name)
    (ho1 : owner ≠ "") (ho2 : owner.data.all Validation.isOwnerChar = true)
    (hsuf : ¬ "github.com".data <:+ owner.data)
    (hn1 : name ≠ "") (hn2 : name.data.all Validation.isOwnerChar = true) :
    GitOps.parse_github_url url = .ok (owner, name) := by
  have hdata := data_httpsUrl owner name
  have hgd : splitOnceAux "github.com/".data (httpsUrl owner name).data =
      some ("https://".data, owner.data ++ '/' :: name.data) := by
    rw [hdata]
    simp [splitOnceAux, List.isPrefixOf]
  have htail : splitOnceAux "github.com/".data (owner.data ++ '/' :: name.data) =
      none := splitOnce_gdata_tail ho2 hsuf hn2
  have hcon : containsSub (httpsUrl owner name) "github.com/" = true := by
    unfold containsSub
    rw [hgd]
    rfl
  have hsplit : pySplitOn (httpsUrl owner name) "github.com/" =
      ["https://", ⟨owner.data ++ '/' :: name.data⟩] := by
    unfold pySplitOn
    rw [splitAll_step _ hgd, splitAll_stop _ htail]
    rfl
  unfold GitOps.parse_github_url
  rw [hval]
  rw [if_neg (by simp)]
  dsimp only
  rw [hrep, hcon]
  rw [if_pos rfl]
  rw [hsplit]
  rw [show lastD ["https://", ⟨owner.data ++ '/' :: name.data⟩] =
    ⟨owner.data ++ '/' :: name.data⟩ from rfl]
  rw [unpackParts_ok url owner name (no_slash_of_ownerChars ho2) ho1 hn1]

/-- `parse_github_url` on any validated URL whose `.git`-removal yields
the clean SSH form recovers `(owner, name)`. -/
theorem parse_of_cleaned_ssh (url owner name : String)
    (hval : Validation.validate_github_url url = true)
    (hrep : pyReplaceGit url = sshUrl owner name)
    (ho1 : owner ≠ "") (ho2 : owner.data.all Validation.isOwnerChar = true)
    (hsuf : ¬ "github.com".data <:+ owner.data)
    (hn1 : name ≠ "") (hn2 : name.data.all Validation.isOwnerChar = true) :
    GitOps.parse_github_url url = .ok (owner, name) := by
  have hdata := data_sshUrl owner name
  have htail : splitOnceAux "github.com/".data (owner.data ++ '/' :: name.data) =
      none := splitOnce_gdata_tail ho2 hsuf hn2
  have hgd : splitOnceAux "github.com/".data (sshUrl owner name).data = none := by
    rw [hdata]
    simp [splitOnceAux, List.isPrefixOf, htail]
  have hcol : splitOnceAux "github.com:".data (sshUrl owner name).data =
      some ("git@".data, owner.data ++ '/' :: name.data) := by
    rw [hdata]
    simp [splitOnceAux, List.isPrefixOf]
  have htailc : splitOnceAux "github.com:".data (owner.data ++ '/' :: name.data) =
      none := splitOnce_colon_tail ho2 hn2
  have hcon1 : containsSub (sshUrl owner name) "github.com/" = false := by
    unfold containsSub
    rw [hgd]
    rfl
  have hcon2 : containsSub (sshUrl owner name) "github.com:" = true := by
    unfold containsSub
    rw [hcol]
    rfl
  have hsplit : pySplitOn (sshUrl owner name) "github.com:" =
      ["git@", ⟨owner.data ++ '/' :: name.data⟩] := by
    unfold pySplitOn
    rw [splitAll_step _ hcol, splitAll_stop _ htailc]
    rfl
  unfold GitOps.parse_github_url
  rw [hval]
  rw [if_neg (by simp)]
  dsimp only
  rw [hrep, hcon1, hcon2]
  rw [if_neg (by simp), if_pos rfl]
  rw [hsplit]
  rw [show lastD ["git@", ⟨owner.data ++ '/' :: name.data⟩] =
    ⟨owner.data ++ '/' :: name.data⟩ from rfl]
  rw [unpackParts_ok url owner name (no_slash_of_ownerChars ho2) ho1 hn1]

instance : DecidableEq (Except PyErr (String × String)) := fun a b =>
  match a, b with
  | .ok x, .ok y => decidable_of_iff (x = y) (by simp)
  | .error x, .error y => decidable_of_iff (x = y) (by simp)
  | .ok _, .error _ => isFalse (by simp)
  | .error _, .ok _ => isFalse (by simp)

/-- C1 (counterexample): the claim fails for owner `"a"` and name
`"b.github"` — both drawn from the accepted character set — because
`parse_github_url` removes *every* occurrence of `".git"`
(`url.replace(".git", "")`), not only a trailing one: the HTTPS URL
built from them parses to `("a", "bhub")`. -/
theorem parse_github_url_not_roundtrip :
    GitOps.parse_github_url (httpsUrl "a" "b.github") = .ok ("a", "bhub") ∧
      GitOps.parse_github_url (httpsUrl "a" "b.github") ≠
        .ok ("a", "b.github") := by
  constructor
  · decide
  · decide

/-- C1 (amended): for every owner and name from the accepted character
set (word characters, dots, hyphens) such that neither contains the
substring `".git"` and the owner does not end in `"github.com"`,
parsing the HTTPS or the SSH hosting URL constructed from
`(owner, name)` returns exactly `(owner, name)`, and appending a
trailing `".git"` to either URL does not change the result. -/
theorem parse_github_url_roundtrip (owner name : String)
    (ho1 : owner ≠ "") (ho2 : owner.data.all Validation.isOwnerChar = true)
    (ho3 : containsSub owner ".git" = false)
    (ho4 : pyEndsWith owner "github.com" = false)
    (hn1 : name ≠ "") (hn2 : name.data.all Validation.isOwnerChar = true)
    (hn3 : containsSub name ".git" = false) :
    GitOps.parse_github_url (httpsUrl owner name) = .ok (owner, name) ∧
    GitOps.parse_github_url (httpsUrl owner name ++ ".git") = .ok (owner, name) ∧
    GitOps.parse_github_url (sshUrl owner name) = .ok (owner, name) ∧
    GitOps.parse_github_url (sshUrl owner name ++ ".git") = .ok (owner, name) := by
  have hod := data_ne_nil_of_ne_empty ho1
  have hnd := data_ne_nil_of_ne_empty hn1
  have hsuf := not_suffix_of_not_endsWith ho4
  have hgo : splitOnceAux gitPat owner.data = none := none_of_not_contains ho3
  have hgn : splitOnceAux gitPat name.data = none := none_of_not_contains hn3
  have hgtail : splitOnceAux gitPat (owner.data ++ '/' :: name.data) = none :=
    splitOnce_git_tail hgo hgn
  have hgtail' : splitOnceAux ['.', 'g', 'i', 't']
      (owner.data ++ '/' :: name.data) = none := hgtail
  have hg_https : splitOnceAux gitPat (httpsUrl owner name).data = none := by
    rw [data_httpsUrl]
    simp [splitOnceAux, List.isPrefixOf, gitPat, hgtail']
  have hg_ssh : splitOnceAux gitPat (sshUrl owner name).data = none := by
    rw [data_sshUrl]
    simp [splitOnceAux, List.isPrefixOf, gitPat, hgtail']
  refine ⟨?_, ?_, ?_, ?_⟩
  · exact parse_of_cleaned_https _ owner name
      (validate_httpsUrl owner name hod ho2 hnd hn2)
      (pyReplaceGit_no_occ hg_https) ho1 ho2 hsuf hn1 hn2
  · exact parse_of_cleaned_https _ owner name
      (validate_httpsUrl_git owner name hod ho2 hnd hn2)
      (pyReplaceGit_append_git hg_https) ho1 ho2 hsuf hn1 hn2
  · exact parse_of_cleaned_ssh _ owner name
      (validate_sshUrl owner name hod ho2 hnd hn2)
      (pyReplaceGit_no_occ hg_ssh) ho1 ho2 hsuf hn1 hn2
  · exact parse_of_cleaned_ssh _ owner name
      (validate_sshUrl_git owner name hod ho2 hnd hn2)
      (pyReplaceGit_append_git hg_ssh) ho1 ho2 hsuf hn1 hn2

/-- C1 (witness): the round trip at `("acme", "widgets")`. -/
theorem parse_github_url_roundtrip_witness :
    GitOps.parse_github_url (httpsUrl "acme" "widgets") =
      .ok ("acme", "widgets") ∧
    GitOps.parse_github_url (httpsUrl "acme" "widgets" ++ ".git") =
      .ok ("acme", "widgets") ∧
    GitOps.parse_github_url (sshUrl "acme" "widgets") =
      .ok ("acme", "widgets") ∧
    GitOps.parse_github_url (sshUrl "acme" "widgets" ++ ".git") =
      .ok ("acme", "widgets") :=
  parse_github_url_roundtrip "acme" "widgets" (by decide) (by decide)
    (by decide) (by decide) (by decide) (by decide) (by decide)

/-- C7 (witness): a concrete no-op publish — the file written already
holds identical content on the base branch, so no commit is created,
yet the branch is pushed. -/
theorem create_unique_branch_commit_push_witness :
    ∃ st', GitLib.create_unique_branch_and_push
        ⟨["main"], fun _ => [("app.py", "x = 1")], "main",
         [("app.py", "x = 1")], 0, []⟩ "main"
        ⟨2026, 10, 12, 9, 30, 0⟩ none "app.py" "x = 1" "msg" =
        .ok ("feature/user-story-update-" ++
          GitLib.strftimeYmdHMS ⟨2026, 10, 12, 9, 30, 0⟩, st') ∧
      (let trees2 : String → List (String × String) := fun b =>
        match (none : Option (List (String × String))) with
        | some t => if b = "main" then t
                    else (fun _ => [("app.py", "x = 1")] :
                      String → List (String × String)) b
        | none => (fun _ => [("app.py", "x = 1")] :
                      String → List (String × String)) b
       let name := "feature/user-story-update-" ++
         GitLib.strftimeYmdHMS ⟨2026, 10, 12, 9, 30, 0⟩
       let tip := if name ∈ ["main"] then trees2 name else trees2 "main"
       st'.commits = 0 + (if GitLib.upsert tip "app.py" "x = 1" = tip then 0 else 1)) ∧
      ("feature/user-story-update-" ++
        GitLib.strftimeYmdHMS ⟨2026, 10, 12, 9, 30, 0⟩) ∈ st'.pushed :=
  create_unique_branch_commit_push
    ⟨["main"], fun _ => [("app.py", "x = 1")], "main",
     [("app.py", "x = 1")], 0, []⟩ "main"
    ⟨2026, 10, 12, 9, 30, 0⟩ none "app.py" "x = 1" "msg" (by decide)

end CodeFactory
